import Mathlib

/-!
# Verification of `tools/ai-mr-review/post_inline_comments.py`

A shallow embedding of the Python script that extracts a JSON review object
from free-form text and posts it as inline comments plus a summary note on a
merge request via the `glab` CLI.

Modelling conventions:
* Python strings are Lean `String`/`List Char`; slicing and `len` count code
  points, as in Python.
* `json.loads` is embedded as `json_loads`.  JSON numbers are modelled as
  integers only (the script's data model uses integer line numbers; float
  literals, `NaN`/`Infinity`, and lone-surrogate `\uXXXX` escapes are outside
  the model and make the embedded parser fail).
* The external `glab` subprocess is an environment `Env` giving each call's
  exit status and output; a run produces a `RunResult` holding the exit code,
  the text printed to stdout and stderr, and the ordered trace of external
  calls.
* `print(x)` appends `x ++ "\n"` to stdout; `print(x, end=" ")` appends
  `x ++ " "`.
-/

set_option maxRecDepth 40000

/-! ## Definitions: the embedded program -/

/-- The JSON values `json.loads` can produce (numbers restricted to
integers, see module docstring). Objects keep their fields in Python `dict`
insertion order, with a duplicate key overwriting the value in place. -/
inductive Json where
  | null : Json
  | bool (b : Bool) : Json
  | num (n : Int) : Json
  | str (s : String) : Json
  | arr (elems : List Json) : Json
  | obj (fields : List (String × Json)) : Json

namespace Json

/-- Lookup of a key in an object's field list (first match; fields are
key-distinct by construction of the parser). -/
def lookupKey (fields : List (String × Json)) (k : String) : Option Json :=
  match fields with
  | [] => none
  | (k', v) :: rest => if k' = k then some v else lookupKey rest k

/-- Python `dict` insertion: replace the value in place if the key exists,
else append at the end. -/
def insertKey (fields : List (String × Json)) (k : String) (v : Json) :
    List (String × Json) :=
  match fields with
  | [] => [(k, v)]
  | (k', v') :: rest =>
    if k' = k then (k', v) :: rest else (k', v') :: insertKey rest k v

/-- Python `"k" in obj` for a dict. -/
def hasKey (fields : List (String × Json)) (k : String) : Bool :=
  (lookupKey fields k).isSome

end Json

/-- JSON inter-token whitespace (Python's `json` module accepts exactly
space, tab, newline, carriage return between tokens). -/
def isJsonWs (c : Char) : Bool :=
  c = ' ' || c = '\t' || c = '\n' || c = '\r'

/-- Skip inter-token whitespace. -/
def skipWs (cs : List Char) : List Char :=
  cs.dropWhile isJsonWs

/-- Hex digit value, if any. -/
def hexVal (c : Char) : Option Nat :=
  if '0' ≤ c ∧ c ≤ '9' then some (c.toNat - '0'.toNat)
  else if 'a' ≤ c ∧ c ≤ 'f' then some (c.toNat - 'a'.toNat + 10)
  else if 'A' ≤ c ∧ c ≤ 'F' then some (c.toNat - 'A'.toNat + 10)
  else none

/-- Parse the body of a JSON string literal after the opening quote,
returning the decoded string and the characters after the closing quote.
Strict mode: unescaped control characters are rejected.  `\uXXXX` escapes
outside the surrogate range decode to the corresponding character; surrogate
escapes are outside the model (see module docstring). -/
def parseStringBody : List Char → List Char → Option (String × List Char)
  | [], _ => none
  | '"' :: rest, acc => some (String.mk acc.reverse, rest)
  | '\\' :: '"' :: rest, acc => parseStringBody rest ('"' :: acc)
  | '\\' :: '\\' :: rest, acc => parseStringBody rest ('\\' :: acc)
  | '\\' :: '/' :: rest, acc => parseStringBody rest ('/' :: acc)
  | '\\' :: 'b' :: rest, acc => parseStringBody rest ('\x08' :: acc)
  | '\\' :: 'f' :: rest, acc => parseStringBody rest ('\x0c' :: acc)
  | '\\' :: 'n' :: rest, acc => parseStringBody rest ('\n' :: acc)
  | '\\' :: 'r' :: rest, acc => parseStringBody rest ('\r' :: acc)
  | '\\' :: 't' :: rest, acc => parseStringBody rest ('\t' :: acc)
  | '\\' :: 'u' :: h1 :: h2 :: h3 :: h4 :: rest, acc =>
    (match hexVal h1, hexVal h2, hexVal h3, hexVal h4 with
     | some a, some b, some c, some d =>
       let n := ((a * 16 + b) * 16 + c) * 16 + d
       if n.isValidChar then
         parseStringBody rest (Char.ofNat n :: acc)
       else none
     | _, _, _, _ => none)
  | '\\' :: _, _ => none
  | c :: rest, acc =>
    if c.toNat < 0x20 then none else parseStringBody rest (c :: acc)

/-- Parse a run of decimal digits. -/
def parseDigits (cs : List Char) (acc : Nat) : Nat × List Char :=
  match cs with
  | c :: rest =>
    if c.isDigit then parseDigits rest (acc * 10 + (c.toNat - '0'.toNat))
    else (acc, cs)
  | [] => (acc, cs)

/-- Parse a JSON integer literal: optional minus, then `0` or a nonzero
digit followed by digits (no leading zeros).  A following `.`/`e`/`E`
(a float literal) is outside the model and makes the parse fail. -/
def parseNumber (cs : List Char) : Option (Int × List Char) :=
  let (neg, cs₁) :=
    match cs with
    | '-' :: rest => (true, rest)
    | _ => (false, cs)
  match cs₁ with
  | c :: rest =>
    if c = '0' then
      match rest with
      | d :: _ => if d.isDigit ∨ d = '.' ∨ d = 'e' ∨ d = 'E' then none
                  else some (0, rest)
      | [] => some (0, rest)
    else if c.isDigit then
      let (n, rest') := parseDigits rest (c.toNat - '0'.toNat)
      match rest' with
      | d :: _ => if d = '.' ∨ d = 'e' ∨ d = 'E' then none
                  else some (if neg then -(n : Int) else n, rest')
      | [] => some (if neg then -(n : Int) else n, rest')
    else none
  | [] => none

/-- The three mutually recursive states of the recursive-descent JSON
parser, defunctionalised so that the parser is a single structural
recursion on its fuel: parse one value, parse the members of a non-empty
object (positioned at a key, with the fields read so far), or parse the
elements of a non-empty array (positioned at a value, with the reversed
elements read so far). -/
inductive PTask where
  | val : PTask
  | members (acc : List (String × Json)) : PTask
  | elems (acc : List Json) : PTask

/-- The recursive-descent parser behind `json_loads`.  One value of fuel is
spent per recursive step; `cs.length + 1` fuel is always enough because
every step that does not finish consumes at least one character (the
`elems → val` step consumes none, but is always preceded by a step that
consumed the `[` or a `,`). -/
def parseGo : Nat → PTask → List Char → Option (Json × List Char)
  | 0, _, _ => none
  | fuel + 1, PTask.val, cs =>
    (match skipWs cs with
     | '{' :: rest =>
       (match skipWs rest with
        | '}' :: rest' => some (.obj [], rest')
        | cs' => parseGo fuel (.members []) cs')
     | '[' :: rest =>
       (match skipWs rest with
        | ']' :: rest' => some (.arr [], rest')
        | cs' => parseGo fuel (.elems []) cs')
     | '"' :: rest =>
       (match parseStringBody rest [] with
        | some (s, rest') => some (.str s, rest')
        | none => none)
     | 't' :: 'r' :: 'u' :: 'e' :: rest => some (.bool true, rest)
     | 'f' :: 'a' :: 'l' :: 's' :: 'e' :: rest => some (.bool false, rest)
     | 'n' :: 'u' :: 'l' :: 'l' :: rest => some (.null, rest)
     | cs' =>
       (match parseNumber cs' with
        | some (n, rest) => some (.num n, rest)
        | none => none))
  | fuel + 1, PTask.members acc, cs =>
    (match cs with
     | '"' :: rest =>
       (match parseStringBody rest [] with
        | some (k, rest₁) =>
          (match skipWs rest₁ with
           | ':' :: rest₂ =>
             (match parseGo fuel .val rest₂ with
              | some (v, rest₃) =>
                (match skipWs rest₃ with
                 | ',' :: rest₄ =>
                   parseGo fuel (.members (Json.insertKey acc k v)) (skipWs rest₄)
                 | '}' :: rest₄ => some (.obj (Json.insertKey acc k v), rest₄)
                 | _ => none)
              | none => none)
           | _ => none)
        | none => none)
     | _ => none)
  | fuel + 1, PTask.elems acc, cs =>
    (match parseGo fuel .val cs with
     | some (v, rest) =>
       (match skipWs rest with
        | ',' :: rest' => parseGo fuel (.elems (v :: acc)) rest'
        | ']' :: rest' => some (.arr (v :: acc).reverse, rest')
        | _ => none)
     | none => none)

/-- Embedding of `json.loads`: parse a complete JSON document, rejecting
trailing non-whitespace (`Extra data` in Python). -/
def json_loads (s : List Char) : Option Json :=
  match parseGo (s.length + 1) .val s with
  | some (v, rest) => if skipWs rest = [] then some v else none
  | none => none

/-- Python `\s` on ASCII text (the regex and `str.strip()` whitespace
class): space, tab, newline, carriage return, vertical tab, form feed.
Non-ASCII Unicode whitespace is outside the model. -/
def isPySpace (c : Char) : Bool :=
  c = ' ' || c = '\t' || c = '\n' || c = '\r' || c = '\x0b' || c = '\x0c'

/-- After the three backticks of a fence match: consume an optional literal
`json`, then the greedy `\s*` run (after which the optional `\n` can only
match empty). -/
def fenceTail (rest : List Char) : List Char :=
  (match rest with
   | 'j' :: 's' :: 'o' :: 'n' :: r => r
   | _ => rest).dropWhile isPySpace

/-- Match the regex `` ```(?:json)?\s*\n? `` at the head of `cs`,
returning the characters after the match, or `none` when the head is not a
match. -/
def matchFence (cs : List Char) : Option (List Char) :=
  match cs with
  | '`' :: '`' :: '`' :: rest => some (fenceTail rest)
  | _ => none

/-- Fuelled scan for `re.sub`: at each position remove a leftmost match and
continue after it, else keep the character.  One fuel per step; `cs.length`
fuel is enough because every step consumes at least one character. -/
def stripFencesGo : Nat → List Char → List Char
  | 0, _ => []
  | fuel + 1, cs =>
    match matchFence cs with
    | some rest => stripFencesGo fuel rest
    | none =>
      match cs with
      | [] => []
      | c :: cs' => c :: stripFencesGo fuel cs'

/-- Embedding of `re.sub(r"```(?:json)?\s*\n?", "", text)`: scan left to
right, removing each leftmost match and continuing after it. -/
def stripFences (cs : List Char) : List Char :=
  stripFencesGo cs.length cs

/-- Does a parsed candidate satisfy the predicate of `extract_json`:
valid JSON that is a dict containing the key `"summary"`? -/
def checkCandidate (candidate : List Char) : Option Json :=
  match json_loads candidate with
  | some (Json.obj fields) =>
    if Json.hasKey fields "summary" then some (Json.obj fields) else none
  | _ => none

/-- The balanced-brace scan of `extract_json`, over the fence-stripped text
`full`.  `cs` is the unscanned tail (`full.drop i`), `depth` the running
brace depth (a Python `int`, so it may go negative), `start` the index of
the `{` that last opened depth 0.  At each `}` that returns the depth to
zero, the slice `full[start : i+1]` is tried; the first slice that parses
to a dict containing `"summary"` is returned. -/
def scanBraces (full : List Char) : List Char → Nat → Int → Option Nat → Option Json
  | [], _, _, _ => none
  | c :: cs, i, depth, start =>
    if c = '{' then
      scanBraces full cs (i + 1) (depth + 1) (if depth = 0 then some i else start)
    else if c = '}' then
      if depth - 1 = 0 then
        match start with
        | some s =>
          match checkCandidate ((full.drop s).take (i + 1 - s)) with
          | some o => some o
          | none => scanBraces full cs (i + 1) (depth - 1) start
        | none => scanBraces full cs (i + 1) (depth - 1) start
      else scanBraces full cs (i + 1) (depth - 1) start
    else scanBraces full cs (i + 1) depth start

/-- Embedding of `extract_json`: strip markdown code fences, then scan for
the first balanced `{...}` slice that parses to a dict with a `"summary"`
key. -/
def extract_json (text : String) : Option Json :=
  let t := stripFences text.data
  scanBraces t t 0 0 none

/-- Python `str.upper()` on ASCII text (non-ASCII case mapping is outside
the model; the script's severities are ASCII). -/
def pyUpper (s : String) : String :=
  String.mk (s.data.map Char.toUpper)

/-- Python `str.strip()` on ASCII text: drop `\s` characters from both
ends. -/
def pyStrip (s : String) : String :=
  String.mk (((s.data.dropWhile isPySpace).reverse.dropWhile isPySpace).reverse)

/-- Python `str(x)` as used on JSON scalars in the script's f-strings.
Containers (and their reprs) never reach an f-string on well-formed input
and are outside the model. -/
def pyStr : Json → String
  | Json.str s => s
  | Json.num n => toString n
  | Json.bool true => "True"
  | Json.bool false => "False"
  | Json.null => "None"
  | Json.arr _ => ""
  | Json.obj _ => ""

/-- Embedding of `SEVERITY_EMOJI.get(severity, "")`: the emoji table of
the script. -/
def SEVERITY_EMOJI (severity : String) : String :=
  if severity = "critical" then String.mk [Char.ofNat 0x2757]
  else if severity = "warning" then String.mk [Char.ofNat 0x26A0, Char.ofNat 0xFE0F]
  else if severity = "suggestion" then String.mk [Char.ofNat 0x1F4A1]
  else ""

/-- Python `obj.get(k, default)` for a JSON dict (calling `.get` on a
non-dict raises in Python and is outside the model). -/
def Json.get (j : Json) (k : String) (default : Json) : Json :=
  match j with
  | Json.obj fields => (Json.lookupKey fields k).getD default
  | _ => default

/-- Python `obj[k]` for a JSON dict.  A missing key raises `KeyError` in
Python; the script only subscripts keys its input contract guarantees, and
the theorems below instantiate comments through `Comment.toJson`, so the
`Json.null` default is never reached there. -/
def Json.item (j : Json) (k : String) : Json :=
  j.get k Json.null

/-- The string content of a JSON value (the script applies string methods
such as `.upper()` to these values; a non-string would raise in Python and
is outside the model). -/
def jsonAsStr : Json → String
  | Json.str s => s
  | _ => ""

/-- The element list of a JSON value (the script iterates `comments`; a
non-list would be iterated differently by Python and is outside the
model). -/
def jsonAsList : Json → List Json
  | Json.arr xs => xs
  | _ => []

/-- Embedding of `comment.get("severity", "suggestion")`. -/
def sevOf (c : Json) : String :=
  jsonAsStr (c.get "severity" (Json.str "suggestion"))

/-- The file path `str(comment['file'])` as rendered in f-strings. -/
def fileOf (c : Json) : String :=
  pyStr (c.item "file")

/-- The line number `str(comment['line'])` as rendered in f-strings. -/
def lineStrOf (c : Json) : String :=
  pyStr (c.item "line")

/-- The body `str(comment['body'])` as rendered in f-strings. -/
def bodyOf (c : Json) : String :=
  pyStr (c.item "body")

/-- The inline comment body built by `post_inline_comment`:
`f"{emoji} **[{label}]** {comment['body']}"`. -/
def inlineBody (c : Json) : String :=
  SEVERITY_EMOJI (sevOf c) ++ " **[" ++ pyUpper (sevOf c) ++ "]** " ++ bodyOf c

/-- A diff-version record as returned by the versions endpoint (the fields
the script reads). -/
structure DiffVersion where
  base_commit_sha : String
  start_commit_sha : String
  head_commit_sha : String
deriving DecidableEq

/-- One external `glab` invocation, with the data the script puts into
it. -/
inductive ExtCall where
  | fetchVersions (mr_iid : String)
  | postDiscussion (mr_iid : String) (body : String)
      (base_sha start_sha head_sha : String)
      (new_path old_path : String) (new_line : Json)
  | postNote (mr_iid : String) (body : String)

/-- The discussion call issued by `post_inline_comment` for one comment:
body plus a position descriptor taking all three SHAs from the fetched
version and using the comment's file for both paths. -/
def mkDiscussion (mr_iid : String) (version : DiffVersion) (c : Json) : ExtCall :=
  ExtCall.postDiscussion mr_iid (inlineBody c)
    version.base_commit_sha version.start_commit_sha version.head_commit_sha
    (fileOf c) (fileOf c) (c.item "line")

/-- The outcome of each external call, supplied by the test environment:
whether the versions call exits 0 and what list it returns, the exit
status and stderr of the i-th discussion call, and the exit status of the
note call. -/
structure Env where
  versionsOk : Bool
  versions : List DiffVersion
  postOk : Nat → Bool
  postErr : Nat → String
  noteOk : Bool

/-- The observable outcome of one run: process exit code, text printed to
stdout and stderr, and the ordered trace of external calls. -/
structure RunResult where
  exitCode : Nat
  stdout : String
  stderr : String
  calls : List ExtCall

/-- Embedding of `stats[severity] = stats.get(severity, 0) + 1` on the
tally dict (modelled as a total function that is zero away from its
support, which subsumes the dict's three initial zero entries). -/
def bumpStat (stats : String → Nat) (k : String) : String → Nat :=
  fun k' => if k' = k then stats k + 1 else stats k'

/-- The `"{c} critical, {w} warnings, {s} suggestions"` tally line shared
by `post_summary` and `print_dry_run`. -/
def statLine (stats : String → Nat) : String :=
  toString (stats "critical") ++ " critical, " ++
  toString (stats "warning") ++ " warnings, " ++
  toString (stats "suggestion") ++ " suggestions"

/-- The note body built by `post_summary`. -/
def summaryBody (summary : String) (stats : String → Nat) : String :=
  "## AI Code Review" ++ "\n\n" ++ summary ++ "\n\n**Inline comments:** " ++
    statLine stats

/-- The bar `"=" * 60`. -/
def eqBar : String := String.mk (List.replicate 60 '=')

/-- The bar `"-" * 60`. -/
def dashBar : String := String.mk (List.replicate 60 '-')

/-- Concatenation of a list of strings (the text a loop of `print`s
emits). -/
def strConcat : List String → String
  | [] => ""
  | s :: rest => s ++ strConcat rest

/-- The lines `print_dry_run` prints for one comment. -/
def dryRunChunk (c : Json) : String :=
  "\n" ++ SEVERITY_EMOJI (sevOf c) ++ " [" ++ pyUpper (sevOf c) ++ "] " ++
    fileOf c ++ ":" ++ lineStrOf c ++ "\n" ++
  "  " ++ bodyOf c ++ "\n"

/-- The severity tally accumulated by `print_dry_run`'s loop. -/
def dryStats (comments : List Json) : String → Nat :=
  comments.foldl (fun st c => bumpStat st (sevOf c)) (fun _ => 0)

/-- Embedding of `print_dry_run`: the full text it prints to stdout. -/
def print_dry_run (summary : String) (comments : List Json) : String :=
  let head := eqBar ++ "\n" ++ "SUMMARY" ++ "\n" ++ eqBar ++ "\n" ++
    summary ++ "\n" ++ "\n"
  if comments.isEmpty then
    head ++ "No inline comments." ++ "\n"
  else
    head ++ eqBar ++ "\n" ++
    "INLINE COMMENTS (" ++ toString comments.length ++ ")" ++ "\n" ++
    eqBar ++ "\n" ++
    strConcat (comments.map dryRunChunk) ++
    "\n" ++ dashBar ++ "\n" ++
    "Total: " ++ statLine (dryStats comments) ++ "\n" ++
    "(dry run — nothing was posted)" ++ "\n"

/-- What the posting loop of `main` accumulates: the posted counter, the
severity tally, the text printed to each stream, and the discussion calls
issued. -/
structure LoopOut where
  posted : Nat
  stats : String → Nat
  out : String
  err : String
  calls : List ExtCall

/-- The `for c in comments` posting loop of `main`, with `i` the index of
the next discussion call in `env`. -/
def postLoop (mr_iid : String) (version : DiffVersion) (env : Env) :
    List Json → Nat → (String → Nat) → LoopOut
  | [], _, stats => ⟨0, stats, "", "", []⟩
  | c :: cs, i, stats =>
    let sev := sevOf c
    let outHead := "  Posting [" ++ sev ++ "] " ++ fileOf c ++ ":" ++
      lineStrOf c ++ " ..." ++ " "
    let call := mkDiscussion mr_iid version c
    let rest := postLoop mr_iid version env cs (i + 1) (bumpStat stats sev)
    if env.postOk i then
      ⟨rest.posted + 1, rest.stats, outHead ++ "OK" ++ "\n" ++ rest.out,
       rest.err, call :: rest.calls⟩
    else
      ⟨rest.posted, rest.stats, outHead ++ "FAILED" ++ "\n" ++ rest.out,
       "  Failed: " ++ fileOf c ++ ":" ++ lineStrOf c ++ " — " ++
         pyStrip (env.postErr i) ++ "\n" ++ rest.err,
       call :: rest.calls⟩

/-- The part of `main` after JSON extraction succeeded, operating on the
extracted review object. -/
def processReview (mr_iid : String) (dry_run : Bool) (review : Json)
    (env : Env) : RunResult :=
  let comments := jsonAsList (review.get "comments" (Json.arr []))
  let summary := pyStr (review.get "summary" (Json.str "No summary provided."))
  if dry_run then
    ⟨0, print_dry_run summary comments, "", []⟩
  else if comments.isEmpty then
    let noteCall := ExtCall.postNote mr_iid (summaryBody summary (fun _ => 0))
    if env.noteOk then
      ⟨0, "No inline comments to post." ++ "\n" ++
          "Summary posted to MR !" ++ mr_iid ++ "\n", "", [noteCall]⟩
    else
      -- `check=True` on the note call: a non-zero exit raises
      -- `CalledProcessError`; the uncaught exception terminates the
      -- process with exit code 1 (its traceback is not modelled).
      ⟨1, "No inline comments to post." ++ "\n", "", [noteCall]⟩
  else
    let fetchOut := "Fetching MR !" ++ mr_iid ++ " diff metadata ..." ++ "\n"
    if env.versionsOk then
      match env.versions with
      | [] =>
        ⟨1, fetchOut, "Error: No diff versions found for this MR." ++ "\n",
         [ExtCall.fetchVersions mr_iid]⟩
      | version :: _ =>
        let lp := postLoop mr_iid version env comments 0 (fun _ => 0)
        let noteCall := ExtCall.postNote mr_iid (summaryBody summary lp.stats)
        if env.noteOk then
          ⟨0, fetchOut ++ lp.out ++
              "\nDone: " ++ toString lp.posted ++ "/" ++
              toString comments.length ++
              " inline comments + summary posted to MR !" ++ mr_iid ++ "\n",
           lp.err,
           ExtCall.fetchVersions mr_iid :: lp.calls ++ [noteCall]⟩
        else
          ⟨1, fetchOut ++ lp.out, lp.err,
           ExtCall.fetchVersions mr_iid :: lp.calls ++ [noteCall]⟩
    else
      -- `check=True` on the versions call: a non-zero exit raises and
      -- terminates the process with exit code 1.
      ⟨1, fetchOut, "", [ExtCall.fetchVersions mr_iid]⟩

/-- Embedding of `main`: argument handling, stdin stripping, JSON
extraction, then `processReview`. -/
def mainRun (argv : List String) (stdinText : String) (env : Env) :
    RunResult :=
  if argv.length < 2 then
    ⟨1, "",
     "Usage: echo '<json>' | " ++ argv.headD "" ++ " <MR_IID> [--dry-run]" ++ "\n",
     []⟩
  else
    let mr_iid := (argv[1]?).getD ""
    let dry_run := argv.contains "--dry-run"
    let raw := pyStrip stdinText
    match extract_json raw with
    | none =>
      ⟨1, "",
       "Error: Could not find valid JSON in Claude's output." ++ "\n" ++
       "Raw output:\n" ++ String.mk (raw.data.take 500) ++ "\n",
       []⟩
    | some review => processReview mr_iid dry_run review env

/-- A well-formed review comment per the script's input contract, used to
instantiate the theorems below. -/
structure Comment where
  file : String
  line : Int
  severity : Option String
  body : String

/-- The JSON dict carrying a well-formed comment. -/
def Comment.toJson (c : Comment) : Json :=
  Json.obj ([("file", Json.str c.file), ("line", Json.num c.line)] ++
    (match c.severity with
     | some s => [("severity", Json.str s)]
     | none => []) ++
    [("body", Json.str c.body)])

/-- The JSON review object holding a summary and a list of comments. -/
def mkReview (summary : String) (comments : List Comment) : Json :=
  Json.obj [("summary", Json.str summary),
            ("comments", Json.arr (comments.map Comment.toJson))]

/-- The string `needle` occurs contiguously inside `hay`. -/
def ContainsSeg (hay needle : String) : Prop :=
  ∃ a b : List Char, hay.data = a ++ needle.data ++ b

/-- Executable substring check, for concrete instances. -/
def segB (needle hay : List Char) : Bool :=
  (List.range (hay.length + 1)).any (fun i => needle.isPrefixOf (hay.drop i))

/-- Classifier for summary-note calls in a trace. -/
def isNoteCall : ExtCall → Bool
  | ExtCall.postNote _ _ => true
  | _ => false

/-- Classifier for inline-discussion calls in a trace. -/
def isDiscCall : ExtCall → Bool
  | ExtCall.postDiscussion _ _ _ _ _ _ _ _ => true
  | _ => false

/-- Classifier for version-fetch calls in a trace. -/
def isFetchCall : ExtCall → Bool
  | ExtCall.fetchVersions _ => true
  | _ => false

/-- The effective severity of a well-formed comment: the given string, or
`"suggestion"` when absent. -/
def Comment.sev (c : Comment) : String :=
  c.severity.getD "suggestion"

/-- Comments with a given effective severity. -/
def countSev (cs : List Json) (k : String) : Nat :=
  cs.countP (fun c => sevOf c == k)

/-- The `  Failed: file:line — stderr` diagnostic the loop prints for the
comment at index `k` when its call fails. -/
def failLine (env : Env) (c : Json) (idx : Nat) : String :=
  "  Failed: " ++ fileOf c ++ ":" ++ lineStrOf c ++ " — " ++
    pyStrip (env.postErr idx) ++ "\n"

/-- Raw brace depth of a character list: `{`s minus `}`s, computed over raw
characters exactly as the scan of `extract_json` does. -/
def braceDepth (cs : List Char) : Int :=
  (cs.countP (fun c => c = '{') : Int) - (cs.countP (fun c => c = '}') : Int)

/-- A text whose raw braces are strictly balanced: it starts with `{`,
its total depth is zero, and every proper non-empty prefix has positive
depth (so the scan's first candidate is the whole text). -/
def StrictBalanced (cs : List Char) : Prop :=
  cs.head? = some '{' ∧ braceDepth cs = 0 ∧
  ∀ k, k < cs.length → 0 < k → 0 < braceDepth (cs.take k)

instance : DecidablePred StrictBalanced := fun cs => by
  unfold StrictBalanced
  infer_instance

/-! ## Lemmas and claim theorems -/

theorem length_dropWhile_le (p : Char → Bool) (l : List Char) :
    (l.dropWhile p).length ≤ l.length := by
  induction l with
  | nil => simp [List.dropWhile]
  | cons a l ih =>
    simp only [List.dropWhile]
    split
    · exact le_trans ih (by simp_arith)
    · simp

theorem fenceTail_length_le (rest : List Char) :
    (fenceTail rest).length ≤ rest.length := by
  unfold fenceTail
  split
  · exact le_trans (length_dropWhile_le _ _) (by simp; omega)
  · exact length_dropWhile_le _ _

theorem matchFence_length_lt {cs rest : List Char}
    (h : matchFence cs = some rest) : rest.length < cs.length := by
  unfold matchFence at h
  split at h
  · next r =>
    injection h with h
    subst h
    have := fenceTail_length_le r
    simp_arith
    omega
  · exact Option.noConfusion h

theorem stripFencesGo_nil (fuel : Nat) : stripFencesGo fuel [] = [] := by
  cases fuel <;> rfl

/-- The result of the fuelled scan does not depend on the fuel, once the
fuel covers the length of the input. -/
theorem stripFencesGo_congr :
    ∀ (f₁ : Nat) (cs : List Char) (f₂ : Nat), cs.length ≤ f₁ →
      cs.length ≤ f₂ → stripFencesGo f₁ cs = stripFencesGo f₂ cs := by
  intro f₁
  induction f₁ with
  | zero =>
    intro cs f₂ h₁ _
    have : cs = [] := List.length_eq_zero.mp (Nat.le_zero.mp h₁)
    subst this
    rw [stripFencesGo_nil, stripFencesGo_nil]
  | succ f₁ ih =>
    intro cs f₂ h₁ h₂
    cases cs with
    | nil => rw [stripFencesGo_nil, stripFencesGo_nil]
    | cons c cs' =>
      cases f₂ with
      | zero => simp at h₂
      | succ f₂' =>
        show stripFencesGo (f₁ + 1) (c :: cs') = stripFencesGo (f₂' + 1) (c :: cs')
        simp only [stripFencesGo]
        cases h : matchFence (c :: cs') with
        | some rest =>
          have hlt := matchFence_length_lt h
          simp only [List.length_cons] at hlt h₁ h₂
          exact ih rest f₂' (by omega) (by omega)
        | none =>
          simp only [List.length_cons] at h₁ h₂
          rw [ih cs' f₂' (by omega) (by omega)]

/-- Unfolding rule for `stripFences` at a fence match. -/
theorem stripFences_matchSome {cs rest : List Char}
    (h : matchFence cs = some rest) : stripFences cs = stripFences rest := by
  unfold stripFences
  have hlt := matchFence_length_lt h
  cases hcs : cs with
  | nil =>
    subst hcs
    have hnone : matchFence ([] : List Char) = none := rfl
    rw [hnone] at h
    exact Option.noConfusion h
  | cons c cs' =>
    subst hcs
    show stripFencesGo (cs'.length + 1) (c :: cs') = _
    simp only [stripFencesGo, h]
    simp only [List.length_cons] at hlt
    exact stripFencesGo_congr _ _ _ (by omega) le_rfl

/-- Unfolding rule for `stripFences` when no fence matches at the head. -/
theorem stripFences_matchNone {c : Char} {cs : List Char}
    (h : matchFence (c :: cs) = none) :
    stripFences (c :: cs) = c :: stripFences cs := by
  unfold stripFences
  show stripFencesGo (cs.length + 1) (c :: cs) = _
  simp only [stripFencesGo, h]

theorem containsSeg_here (pre needle post : String) :
    ContainsSeg (pre ++ needle ++ post) needle :=
  ⟨pre.data, post.data, by simp⟩

theorem ContainsSeg.within {s n : String} (h : ContainsSeg s n)
    (pre post : String) : ContainsSeg (pre ++ s ++ post) n := by
  obtain ⟨a, b, hab⟩ := h
  exact ⟨pre.data ++ a, b ++ post.data, by simp [hab]⟩

theorem ContainsSeg.before {s n : String} (h : ContainsSeg s n)
    (post : String) : ContainsSeg (s ++ post) n := by
  obtain ⟨a, b, hab⟩ := h
  exact ⟨a, b ++ post.data, by simp [hab]⟩

theorem ContainsSeg.after {s n : String} (h : ContainsSeg s n)
    (pre : String) : ContainsSeg (pre ++ s) n := by
  obtain ⟨a, b, hab⟩ := h
  exact ⟨pre.data ++ a, b, by simp [hab]⟩

theorem containsSeg_strConcat {α : Type} {c : α} {cs : List α}
    (f : α → String) (n : String) (hmem : c ∈ cs)
    (hc : ContainsSeg (f c) n) : ContainsSeg (strConcat (cs.map f)) n := by
  induction cs with
  | nil => cases hmem
  | cons x xs ih =>
    rcases List.mem_cons.mp hmem with h | h
    · subst h
      exact hc.before _
    · exact (ih h).after _

theorem isPrefixOf_exists :
    ∀ {u l : List Char}, u.isPrefixOf l = true → ∃ t, l = u ++ t := by
  intro u
  induction u with
  | nil => exact fun h => ⟨_, rfl⟩
  | cons a u ih =>
    intro l h
    cases l with
    | nil => simp [List.isPrefixOf] at h
    | cons b l =>
      simp only [List.isPrefixOf, Bool.and_eq_true, beq_iff_eq] at h
      obtain ⟨t, ht⟩ := ih h.2
      exact ⟨t, by rw [h.1, ht]; rfl⟩

theorem containsSeg_of_segB {hay needle : String}
    (h : segB needle.data hay.data = true) : ContainsSeg hay needle := by
  unfold segB at h
  rw [List.any_eq_true] at h
  obtain ⟨i, _, hpre⟩ := h
  obtain ⟨t, ht⟩ := isPrefixOf_exists hpre
  exact ⟨hay.data.take i, t, by
    conv_lhs => rw [← List.take_append_drop i hay.data]
    rw [ht, List.append_assoc]⟩

theorem comments_mkReview (s : String) (cs : List Comment) :
    jsonAsList ((mkReview s cs).get "comments" (Json.arr [])) =
      cs.map Comment.toJson := rfl

theorem summary_mkReview (s : String) (cs : List Comment) :
    pyStr ((mkReview s cs).get "summary" (Json.str "No summary provided.")) =
      s := rfl

theorem sevOf_toJson (c : Comment) : sevOf c.toJson = c.sev := by
  rcases c with ⟨f, l, sev, b⟩
  cases sev <;> rfl

theorem fileOf_toJson (c : Comment) : fileOf c.toJson = c.file := rfl

theorem lineStrOf_toJson (c : Comment) : lineStrOf c.toJson = toString c.line := rfl

theorem bodyOf_toJson (c : Comment) : bodyOf c.toJson = c.body := by
  rcases c with ⟨f, l, sev, b⟩
  cases sev <;> rfl

theorem postLoop_calls (m : String) (v : DiffVersion) (env : Env) :
    ∀ (cs : List Json) (i : Nat) (st : String → Nat),
      (postLoop m v env cs i st).calls = cs.map (mkDiscussion m v) := by
  intro cs
  induction cs with
  | nil => intro i st; rfl
  | cons c cs ih =>
    intro i st
    cases h : env.postOk i <;> simp [postLoop, h, ih]

theorem postLoop_stats (m : String) (v : DiffVersion) (env : Env) :
    ∀ (cs : List Json) (i : Nat) (st : String → Nat) (k : String),
      (postLoop m v env cs i st).stats k = st k + countSev cs k := by
  intro cs
  induction cs with
  | nil => intro i st k; simp [postLoop, countSev]
  | cons c cs ih =>
    intro i st k
    have hstep : ∀ b : Bool, env.postOk i = b →
        (postLoop m v env (c :: cs) i st).stats k =
          (postLoop m v env cs (i + 1) (bumpStat st (sevOf c))).stats k := by
      intro b hb
      cases b <;> simp [postLoop, hb]
    rw [hstep (env.postOk i) rfl, ih]
    simp only [countSev, List.countP_cons, bumpStat]
    by_cases hk : k = sevOf c
    · subst hk
      simp
      omega
    · have : ¬ (sevOf c == k) = true := by
        simp only [beq_iff_eq]
        exact fun hcontra => hk hcontra.symm
      simp [hk, this]

theorem postLoop_posted (m : String) (v : DiffVersion) (env : Env) :
    ∀ (cs : List Json) (i : Nat) (st : String → Nat),
      (postLoop m v env cs i st).posted =
        (List.range cs.length).countP (fun j => env.postOk (i + j)) := by
  intro cs
  induction cs with
  | nil => intro i st; simp [postLoop]
  | cons c cs ih =>
    intro i st
    have hrange : List.range (cs.length + 1) = 0 :: (List.range cs.length).map Nat.succ :=
      List.range_succ_eq_map cs.length
    have hcomp : ((fun j => env.postOk (i + j)) ∘ Nat.succ) =
        (fun j => env.postOk (i + 1 + j)) := by
      funext j
      simp only [Function.comp]
      congr 1
      omega
    cases h : env.postOk i <;>
      simp [postLoop, h, hrange, List.countP_cons, List.countP_map, ih, hcomp]

theorem containsSeg_self (n : String) : ContainsSeg n n :=
  ⟨[], [], by simp⟩

theorem postLoop_err_failed (m : String) (v : DiffVersion) (env : Env) :
    ∀ (cs : List Json) (i : Nat) (st : String → Nat) (k : Nat)
      (hk : k < cs.length), env.postOk (i + k) = false →
      ContainsSeg (postLoop m v env cs i st).err
        (failLine env (cs.get ⟨k, hk⟩) (i + k)) := by
  intro cs
  induction cs with
  | nil => intro i st k hk; cases hk
  | cons c cs ih =>
    intro i st k hk hfail
    cases k with
    | zero =>
      have h0 : env.postOk i = false := by simpa using hfail
      simp only [postLoop, h0, Bool.false_eq_true, if_false]
      show ContainsSeg (failLine env c i ++ _) _
      simpa [failLine] using (containsSeg_self (failLine env c i)).before
        (postLoop m v env cs (i + 1) (bumpStat st (sevOf c))).err
    | succ k =>
      have hk' : k < cs.length := by simpa using hk
      have hfail' : env.postOk (i + 1 + k) = false := by
        have : i + 1 + k = i + (k + 1) := by omega
        rw [this]
        exact hfail
      have hrec := ih (i + 1) (bumpStat st (sevOf c)) k hk' hfail'
      have heq : i + 1 + k = i + (k + 1) := by omega
      rw [heq] at hrec
      have hget : cs.get ⟨k, hk'⟩ = (c :: cs).get ⟨k + 1, hk⟩ := rfl
      rw [hget] at hrec
      cases h : env.postOk i
      · simp only [postLoop, h, Bool.false_eq_true, if_false]
        exact hrec.after _
      · simp only [postLoop, h, if_true]
        exact hrec

theorem dryRunChunk_file_line (c : Json) :
    ContainsSeg (dryRunChunk c) (fileOf c ++ ":" ++ lineStrOf c) :=
  ⟨("\n" ++ SEVERITY_EMOJI (sevOf c) ++ " [" ++ pyUpper (sevOf c) ++ "] ").data,
   ("\n" ++ "  " ++ bodyOf c ++ "\n").data,
   by simp [dryRunChunk]⟩

theorem dryRunChunk_sev (c : Json) :
    ContainsSeg (dryRunChunk c) (pyUpper (sevOf c)) :=
  ⟨("\n" ++ SEVERITY_EMOJI (sevOf c) ++ " [").data,
   ("] " ++ fileOf c ++ ":" ++ lineStrOf c ++ "\n" ++ "  " ++ bodyOf c ++ "\n").data,
   by simp [dryRunChunk]⟩

theorem dryRunChunk_body (c : Json) :
    ContainsSeg (dryRunChunk c) (bodyOf c) :=
  ⟨("\n" ++ SEVERITY_EMOJI (sevOf c) ++ " [" ++ pyUpper (sevOf c) ++ "] " ++
      fileOf c ++ ":" ++ lineStrOf c ++ "\n" ++ "  ").data,
   ("\n" : String).data,
   by simp [dryRunChunk]⟩

theorem print_dry_run_contains {comments : List Json} {c : Json}
    (hmem : c ∈ comments) (summary : String) {n : String}
    (hc : ContainsSeg (dryRunChunk c) n) :
    ContainsSeg (print_dry_run summary comments) n := by
  have hne : comments.isEmpty = false := by
    cases comments
    · cases hmem
    · rfl
  have h1 := containsSeg_strConcat dryRunChunk n hmem hc
  unfold print_dry_run
  rw [hne]
  simp only [Bool.false_eq_true, if_false]
  exact (((((((((h1.after _).before _).before _).before _).before _).before
    _).before _).before _).before _)

theorem processReview_dry (iid s : String) (cs : List Comment) (env : Env) :
    processReview iid true (mkReview s cs) env =
      ⟨0, print_dry_run s (cs.map Comment.toJson), "", []⟩ := by
  unfold processReview
  simp only [comments_mkReview, summary_mkReview, if_true]

/-- C2 counterexample: for a comment whose severity is the unrecognized
string `"info"`, the claim says the program treats the severity as
`"suggestion"`; in fact the posted label is `[INFO]`, not `[SUGGESTION]`,
and the tally counts it under `"info"`, leaving the suggestion count at
zero. -/
theorem C2_counterexample :
    sevOf (Comment.toJson ⟨"a.c", 3, some "info", "x"⟩) = "info" ∧
    inlineBody (Comment.toJson ⟨"a.c", 3, some "info", "x"⟩) = " **[INFO]** x" ∧
    inlineBody (Comment.toJson ⟨"a.c", 3, some "info", "x"⟩) ≠ " **[SUGGESTION]** x" ∧
    dryStats [Comment.toJson ⟨"a.c", 3, some "info", "x"⟩] "suggestion" = 0 ∧
    dryStats [Comment.toJson ⟨"a.c", 3, some "info", "x"⟩] "info" = 1 := by
  refine ⟨rfl, rfl, ?_, rfl, rfl⟩
  intro h
  exact absurd h (by decide)

/-- C2 (amended): a comment with an absent severity field is treated as
`"suggestion"`; a comment whose severity is any present string keeps that
string as-is: it is uppercased in the posted label, rendered with its own
(possibly empty) emoji, and tallied under its own key — an unrecognized
severity is not mapped to `"suggestion"` and leaves the suggestion count
untouched. -/
theorem C2_severity_default (f : String) (l : Int) (b s : String) :
    sevOf (Comment.toJson ⟨f, l, none, b⟩) = "suggestion" ∧
    sevOf (Comment.toJson ⟨f, l, some s, b⟩) = s ∧
    inlineBody (Comment.toJson ⟨f, l, some s, b⟩) =
      SEVERITY_EMOJI s ++ " **[" ++ pyUpper s ++ "]** " ++ b ∧
    dryStats [Comment.toJson ⟨f, l, some s, b⟩] s = 1 ∧
    (s ≠ "suggestion" →
      dryStats [Comment.toJson ⟨f, l, some s, b⟩] "suggestion" = 0) := by
  refine ⟨rfl, rfl, rfl, ?_, ?_⟩
  · have hsev : sevOf (Comment.toJson ⟨f, l, some s, b⟩) = s := rfl
    simp [dryStats, bumpStat, hsev]
  · intro hne
    have hsev : sevOf (Comment.toJson ⟨f, l, some s, b⟩) = s := rfl
    simp [dryStats, bumpStat, hsev, Ne.symm hne]

/-- Witness for C2 (amended) at a concrete unrecognized severity. -/
theorem C2_severity_default_witness :
    ("info" : String) ≠ "suggestion" ∧
    dryStats [Comment.toJson ⟨"a.c", 3, some "info", "x"⟩] "suggestion" = 0 :=
  ⟨by decide, (C2_severity_default "a.c" 3 "x" "info").2.2.2.2 (by decide)⟩

/-- A non-dry run over an empty comments list: one note call, exit 0. -/
theorem processReview_empty_comments (iid s : String) (env : Env)
    (hnote : env.noteOk = true) :
    (processReview iid false (mkReview s []) env).exitCode = 0 ∧
    (processReview iid false (mkReview s []) env).calls =
      [ExtCall.postNote iid (summaryBody s (fun _ => 0))] := by
  unfold processReview
  simp [comments_mkReview, summary_mkReview, hnote]

/-- C7: a non-dry-run on a review with an empty comments list issues
exactly one external call — the summary note — and exits 0 (given the note
call itself succeeds; its failure is claim C9). -/
theorem C7_empty_review (iid s : String) (env : Env)
    (hnote : env.noteOk = true) :
    (processReview iid false (mkReview s []) env).exitCode = 0 ∧
    (processReview iid false (mkReview s []) env).calls =
      [ExtCall.postNote iid (summaryBody s (fun _ => 0))] :=
  processReview_empty_comments iid s env hnote

/-- Witness for C7 at a concrete review and environment. -/
theorem C7_empty_review_witness :
    (Env.mk true [] (fun _ => true) (fun _ => "") true).noteOk = true ∧
    (processReview "7" false (mkReview "all good" [])
      (Env.mk true [] (fun _ => true) (fun _ => "") true)).exitCode = 0 :=
  ⟨rfl, (C7_empty_review "7" "all good" _ rfl).1⟩

/-- Characterization of a non-dry run over a non-empty comment list when
the versions call succeeds with a non-empty list: what `main` prints,
returns and calls, in terms of the posting loop. -/
theorem processReview_nonempty_eq (iid s : String) (cms : List Comment)
    (env : Env) (v : DiffVersion) (vs : List DiffVersion)
    (hne : cms ≠ []) (hv : env.versionsOk = true)
    (hv2 : env.versions = v :: vs) :
    processReview iid false (mkReview s cms) env =
      (let lp := postLoop iid v env (cms.map Comment.toJson) 0 (fun _ => 0)
       let noteCall := ExtCall.postNote iid (summaryBody s lp.stats)
       if env.noteOk then
         ⟨0, "Fetching MR !" ++ iid ++ " diff metadata ..." ++ "\n" ++ lp.out ++
             "\nDone: " ++ toString lp.posted ++ "/" ++
             toString (cms.map Comment.toJson).length ++
             " inline comments + summary posted to MR !" ++ iid ++ "\n",
          lp.err, ExtCall.fetchVersions iid :: lp.calls ++ [noteCall]⟩
       else
         ⟨1, "Fetching MR !" ++ iid ++ " diff metadata ..." ++ "\n" ++ lp.out,
          lp.err, ExtCall.fetchVersions iid :: lp.calls ++ [noteCall]⟩) := by
  obtain ⟨c₀, cs₀, rfl⟩ : ∃ c₀ cs₀, cms = c₀ :: cs₀ := by
    cases cms with
    | nil => exact absurd rfl hne
    | cons c₀ cs₀ => exact ⟨c₀, cs₀, rfl⟩
  unfold processReview
  simp only [comments_mkReview, summary_mkReview, List.map_cons,
    List.isEmpty_cons, hv, hv2, if_true, Bool.false_eq_true, if_false]

/-- Inline-discussion calls are never summary notes. -/
theorem countP_isNoteCall_map (iid : String) (v : DiffVersion)
    (l : List Json) :
    (l.map (mkDiscussion iid v)).countP isNoteCall = 0 := by
  rw [List.countP_eq_zero]
  intro a ha
  obtain ⟨x, _, hx⟩ := List.mem_map.mp ha
  rw [← hx]
  simp [mkDiscussion, isNoteCall]

/-- Composed form of `countP_isNoteCall_map`, as produced by `simp`. -/
theorem countP_isNoteCall_comp (iid : String) (v : DiffVersion)
    (l : List Comment) :
    List.countP (isNoteCall ∘ mkDiscussion iid v ∘ Comment.toJson) l = 0 := by
  rw [List.countP_eq_zero]
  intro a _
  simp [Function.comp, mkDiscussion, isNoteCall]

/-- C9: when the summary-note call signals failure (non-zero exit), the
`check=True` exception propagates and the run exits non-zero; the note call
was issued (exactly one appears in the trace) but its failure is never
recovered into a zero exit.  This covers both paths that post the note:
the empty-comments path and the normal path. -/
theorem C9_summary_failure (iid s : String) (cs : List Comment) (env : Env)
    (hnote : env.noteOk = false)
    (hv : env.versionsOk = true)
    (hvs : env.versions ≠ []) :
    (processReview iid false (mkReview s cs) env).exitCode = 1 ∧
    ((processReview iid false (mkReview s cs) env).calls.countP isNoteCall)
      = 1 := by
  cases cs with
  | nil =>
    unfold processReview
    simp [comments_mkReview, summary_mkReview, hnote, isNoteCall]
  | cons c cs' =>
    obtain ⟨v, vs, hv2⟩ : ∃ v vs, env.versions = v :: vs := by
      cases h : env.versions with
      | nil => exact absurd h hvs
      | cons v vs => exact ⟨v, vs, rfl⟩
    rw [processReview_nonempty_eq iid s (c :: cs') env v vs (by simp) hv hv2]
    simp only [hnote, Bool.false_eq_true, if_false]
    exact ⟨by trivial,
      by simp [List.countP_append, List.countP_cons, postLoop_calls,
        List.countP_map, countP_isNoteCall_comp, isNoteCall, mkDiscussion]⟩

/-- Witness for C9 at a concrete review and failing-note environment. -/
theorem C9_summary_failure_witness :
    (Env.mk true [⟨"b", "s", "h"⟩] (fun _ => true) (fun _ => "") false).noteOk
        = false ∧
    (Env.mk true [⟨"b", "s", "h"⟩] (fun _ => true) (fun _ => "") false).versionsOk
        = true ∧
    (Env.mk true [⟨"b", "s", "h"⟩] (fun _ => true) (fun _ => "") false).versions
        ≠ [] ∧
    (processReview "5" false (mkReview "r" [⟨"a.c", 3, some "critical", "x"⟩])
      (Env.mk true [⟨"b", "s", "h"⟩] (fun _ => true) (fun _ => "") false)).exitCode
        = 1 :=
  ⟨rfl, rfl, by simp,
   (C9_summary_failure "5" "r" [⟨"a.c", 3, some "critical", "x"⟩] _ rfl rfl
     (by simp)).1⟩

/-- C10: a review object that has a `"summary"` key but no `"comments"`
key behaves exactly like a review with zero comments: the whole run result
is equal to that of the empty-comments review; in dry-run mode the output
is the summary block followed by `No inline comments.`; in a non-dry run
(with the note call succeeding) the only external call is the single
summary note — in particular the diff-version fetch is skipped — and the
run exits 0. -/
theorem C10_missing_comments_key (iid s : String) (d : Bool) (env : Env)
    (fields : List (String × Json))
    (hc : Json.lookupKey fields "comments" = none)
    (hs : Json.lookupKey fields "summary" = some (Json.str s)) :
    processReview iid d (Json.obj fields) env =
      processReview iid d (mkReview s []) env ∧
    (d = true →
      (processReview iid d (Json.obj fields) env).stdout =
        eqBar ++ "\n" ++ "SUMMARY" ++ "\n" ++ eqBar ++ "\n" ++ s ++ "\n" ++
          "\n" ++ "No inline comments." ++ "\n") ∧
    (d = false → env.noteOk = true →
      (processReview iid d (Json.obj fields) env).calls =
        [ExtCall.postNote iid (summaryBody s (fun _ => 0))] ∧
      (processReview iid d (Json.obj fields) env).exitCode = 0) := by
  have h₁ : jsonAsList ((Json.obj fields).get "comments" (Json.arr [])) =
      jsonAsList ((mkReview s []).get "comments" (Json.arr [])) := by
    have hL : (Json.obj fields).get "comments" (Json.arr []) = Json.arr [] := by
      simp [Json.get, hc]
    rw [hL]
    rfl
  have h₂ : pyStr ((Json.obj fields).get "summary"
        (Json.str "No summary provided.")) =
      pyStr ((mkReview s []).get "summary"
        (Json.str "No summary provided.")) := by
    have hL : (Json.obj fields).get "summary"
        (Json.str "No summary provided.") = Json.str s := by
      simp [Json.get, hs]
    rw [hL]
    rfl
  have hmain : processReview iid d (Json.obj fields) env =
      processReview iid d (mkReview s []) env := by
    unfold processReview
    rw [h₁, h₂]
  refine ⟨hmain, ?_, ?_⟩
  · intro hd
    subst hd
    rw [hmain, processReview_dry]
    rfl
  · intro hd hnote
    subst hd
    rw [hmain]
    exact ⟨(processReview_empty_comments iid s env hnote).2,
           (processReview_empty_comments iid s env hnote).1⟩

/-- Witness for C10 at a concrete review object lacking `"comments"`. -/
theorem C10_missing_comments_key_witness :
    Json.lookupKey [("summary", Json.str "ok")] "comments" = none ∧
    Json.lookupKey [("summary", Json.str "ok")] "summary" =
      some (Json.str "ok") ∧
    processReview "3" true (Json.obj [("summary", Json.str "ok")])
        (Env.mk true [] (fun _ => true) (fun _ => "") true) =
      processReview "3" true (mkReview "ok" [])
        (Env.mk true [] (fun _ => true) (fun _ => "") true) :=
  ⟨rfl, rfl,
   (C10_missing_comments_key "3" "ok" true _ [("summary", Json.str "ok")]
     rfl rfl).1⟩

/-- C5: in a run that reaches the posting loop, a non-zero exit from any
single inline-comment call is non-fatal: every comment's call is still
issued, in input order (the trace lists one discussion per comment, in
sequence, followed by the summary note), each failed comment is logged to
stderr with its `Failed:` diagnostic, the `Done:` tally counts only the
successful calls, and the process exits 0 since the summary note posts. -/
theorem C5_per_comment_failure_nonfatal (iid s : String) (cms : List Comment)
    (env : Env) (v : DiffVersion) (vs : List DiffVersion)
    (hne : cms ≠ []) (hv : env.versionsOk = true)
    (hv2 : env.versions = v :: vs) (hnote : env.noteOk = true) :
    (processReview iid false (mkReview s cms) env).exitCode = 0 ∧
    (processReview iid false (mkReview s cms) env).calls =
      ExtCall.fetchVersions iid ::
        (cms.map Comment.toJson).map (mkDiscussion iid v) ++
        [ExtCall.postNote iid (summaryBody s
          (postLoop iid v env (cms.map Comment.toJson) 0 (fun _ => 0)).stats)] ∧
    ContainsSeg (processReview iid false (mkReview s cms) env).stdout
      ("\nDone: " ++
        toString ((List.range cms.length).countP (fun j => env.postOk j)) ++
        "/" ++ toString cms.length) ∧
    ∀ (k : Nat) (hk : k < cms.length), env.postOk k = false →
      ContainsSeg (processReview iid false (mkReview s cms) env).stderr
        (failLine env (Comment.toJson (cms.get ⟨k, hk⟩)) k) := by
  rw [processReview_nonempty_eq iid s cms env v vs hne hv hv2]
  simp only [hnote, if_true]
  have hposted : (postLoop iid v env (cms.map Comment.toJson) 0
      (fun _ => 0)).posted =
      (List.range cms.length).countP (fun j => env.postOk j) := by
    rw [postLoop_posted]
    simp
  refine ⟨by trivial, ?_, ?_, ?_⟩
  · simp [postLoop_calls]
  · refine ⟨("Fetching MR !" ++ iid ++ " diff metadata ..." ++ "\n" ++
        (postLoop iid v env (cms.map Comment.toJson) 0 (fun _ => 0)).out).data,
      (" inline comments + summary posted to MR !" ++ iid ++ "\n").data, ?_⟩
    rw [← hposted]
    simp [List.append_assoc]
  · intro k hk hfail
    have hk' : k < (cms.map Comment.toJson).length := by simpa using hk
    have hres := postLoop_err_failed iid v env (cms.map Comment.toJson) 0
      (fun _ => 0) k hk' (by simpa using hfail)
    have hget : (cms.map Comment.toJson).get ⟨k, hk'⟩ =
        Comment.toJson (cms.get ⟨k, hk⟩) := by
      simp [List.getElem_map]
    rw [hget] at hres
    simpa using hres

/-- Witness for C5 at two comments, one simulated call failure. -/
theorem C5_per_comment_failure_nonfatal_witness :
    ([⟨"a.c", 3, some "critical", "null deref"⟩, ⟨"b.c", 7, none, "style"⟩] :
        List Comment) ≠ [] ∧
    (Env.mk true [⟨"b", "s", "h"⟩] (fun i => i == 0) (fun _ => " boom ")
        true).versionsOk = true ∧
    (processReview "9" false
      (mkReview "r" [⟨"a.c", 3, some "critical", "null deref"⟩,
        ⟨"b.c", 7, none, "style"⟩])
      (Env.mk true [⟨"b", "s", "h"⟩] (fun i => i == 0) (fun _ => " boom ")
        true)).exitCode = 0 :=
  ⟨by simp, rfl,
   (C5_per_comment_failure_nonfatal "9" "r"
     [⟨"a.c", 3, some "critical", "null deref"⟩, ⟨"b.c", 7, none, "style"⟩]
     _ ⟨"b", "s", "h"⟩ [] (by simp) rfl rfl rfl).1⟩

/-- C3 counterexample: a review with one comment of unrecognized severity
`"info"` and no failures posts a summary note whose tally line reads
`0 critical, 0 warnings, 0 suggestions` — the three counts sum to 0, not
to N = 1 as the claim requires for every review. -/
theorem C3_counterexample :
    (processReview "1" false (mkReview "r" [⟨"a.c", 3, some "info", "x"⟩])
        (Env.mk true [⟨"b", "s", "h"⟩] (fun _ => true) (fun _ => "")
          true)).calls =
      [ExtCall.fetchVersions "1",
       mkDiscussion "1" ⟨"b", "s", "h"⟩
         (Comment.toJson ⟨"a.c", 3, some "info", "x"⟩),
       ExtCall.postNote "1" ("## AI Code Review" ++ "\n\n" ++ "r" ++
         "\n\n**Inline comments:** " ++
         "0 critical, 0 warnings, 0 suggestions")] ∧
    (0 : Nat) + 0 + 0 ≠ 1 :=
  ⟨rfl, by decide⟩

/-- A list of comments whose severities all lie in the recognized set is
partitioned exactly by the three severity counts. -/
theorem sev_counts_sum (cms : List Comment)
    (hsev : ∀ c ∈ cms, c.sev = "critical" ∨ c.sev = "warning" ∨
      c.sev = "suggestion") :
    cms.countP (fun c => c.sev == "critical") +
      cms.countP (fun c => c.sev == "warning") +
      cms.countP (fun c => c.sev == "suggestion") = cms.length := by
  induction cms with
  | nil => rfl
  | cons c cs ih =>
    have hc := hsev c (by simp)
    have hrest : ∀ x ∈ cs, x.sev = "critical" ∨ x.sev = "warning" ∨
        x.sev = "suggestion" := fun x hx => hsev x (by simp [hx])
    have ih' := ih hrest
    rcases hc with h | h | h <;> simp [List.countP_cons, h] <;> omega

/-- The severity tally of the posting loop over well-formed comments. -/
theorem postLoop_stats_toJson (iid : String) (v : DiffVersion) (env : Env)
    (cms : List Comment) (k : String) :
    (postLoop iid v env (cms.map Comment.toJson) 0 (fun _ => 0)).stats k =
      cms.countP (fun c => c.sev == k) := by
  rw [postLoop_stats]
  simp only [countSev, List.countP_map, Nat.zero_add]
  congr 1
  funext c
  simp [Function.comp, sevOf_toJson]

theorem countP_pos_neg (l : List Nat) (p : Nat → Bool) :
    l.countP p + l.countP (fun a => !p a) = l.length := by
  induction l with
  | nil => rfl
  | cons a l ih =>
    simp only [List.countP_cons, List.length_cons]
    cases h : p a <;> simp [h] <;> omega

/-- C3 (amended): in a run that reaches the posting loop, with N comments
of which the calls at K indices fail, the run reports exactly N−K comments
as posted (that count appears in the final `Done:` line) and exactly one
summary note is posted; the note's critical/warning/suggestion counts sum
to N provided every comment's severity is absent or one of the three
recognized values (an unrecognized severity is tallied under its own key
and missing from the three reported counts — see the counterexample). -/
theorem C3_report_counts (iid s : String) (cms : List Comment) (env : Env)
    (v : DiffVersion) (vs : List DiffVersion)
    (hne : cms ≠ []) (hv : env.versionsOk = true)
    (hv2 : env.versions = v :: vs) (hnote : env.noteOk = true)
    (hsev : ∀ c ∈ cms, c.sev = "critical" ∨ c.sev = "warning" ∨
      c.sev = "suggestion") :
    (postLoop iid v env (cms.map Comment.toJson) 0 (fun _ => 0)).posted =
      cms.length -
        (List.range cms.length).countP (fun j => !(env.postOk j)) ∧
    ContainsSeg (processReview iid false (mkReview s cms) env).stdout
      ("\nDone: " ++
        toString (cms.length -
          (List.range cms.length).countP (fun j => !(env.postOk j))) ++
        "/" ++ toString cms.length) ∧
    (processReview iid false (mkReview s cms) env).calls.countP isNoteCall
      = 1 ∧
    ExtCall.postNote iid (summaryBody s
        (postLoop iid v env (cms.map Comment.toJson) 0 (fun _ => 0)).stats) ∈
      (processReview iid false (mkReview s cms) env).calls ∧
    (postLoop iid v env (cms.map Comment.toJson) 0
        (fun _ => 0)).stats "critical" +
      (postLoop iid v env (cms.map Comment.toJson) 0
        (fun _ => 0)).stats "warning" +
      (postLoop iid v env (cms.map Comment.toJson) 0
        (fun _ => 0)).stats "suggestion" = cms.length := by
  have hposted0 : (postLoop iid v env (cms.map Comment.toJson) 0
      (fun _ => 0)).posted =
      (List.range cms.length).countP env.postOk := by
    rw [postLoop_posted]
    simp
  have hsum := countP_pos_neg (List.range cms.length) env.postOk
  have hlen : (List.range cms.length).length = cms.length := by simp
  have hposted : (postLoop iid v env (cms.map Comment.toJson) 0
      (fun _ => 0)).posted =
      cms.length - (List.range cms.length).countP (fun j => !(env.postOk j))
      := by
    rw [hposted0]
    rw [hlen] at hsum
    omega
  refine ⟨hposted, ?_, ?_, ?_, ?_⟩
  · rw [processReview_nonempty_eq iid s cms env v vs hne hv hv2]
    simp only [hnote, if_true]
    refine ⟨("Fetching MR !" ++ iid ++ " diff metadata ..." ++ "\n" ++
        (postLoop iid v env (cms.map Comment.toJson) 0 (fun _ => 0)).out).data,
      (" inline comments + summary posted to MR !" ++ iid ++ "\n").data, ?_⟩
    rw [← hposted]
    simp [List.append_assoc]
  · rw [processReview_nonempty_eq iid s cms env v vs hne hv hv2]
    simp only [hnote, if_true]
    simp [List.countP_append, List.countP_cons, postLoop_calls,
      List.countP_map, countP_isNoteCall_comp, isNoteCall, mkDiscussion]
  · rw [processReview_nonempty_eq iid s cms env v vs hne hv hv2]
    simp only [hnote, if_true]
    simp
  · rw [postLoop_stats_toJson, postLoop_stats_toJson, postLoop_stats_toJson]
    exact sev_counts_sum cms hsev

/-- Witness for C3 (amended) at two recognized-severity comments with one
simulated failure. -/
theorem C3_report_counts_witness :
    ([⟨"a.c", 3, some "critical", "x"⟩, ⟨"b.c", 7, none, "y"⟩] :
        List Comment) ≠ [] ∧
    (∀ c ∈ ([⟨"a.c", 3, some "critical", "x"⟩, ⟨"b.c", 7, none, "y"⟩] :
        List Comment), c.sev = "critical" ∨ c.sev = "warning" ∨
        c.sev = "suggestion") ∧
    (postLoop "2" ⟨"b", "s", "h"⟩
        (Env.mk true [⟨"b", "s", "h"⟩] (fun i => i == 0) (fun _ => "") true)
        (([⟨"a.c", 3, some "critical", "x"⟩, ⟨"b.c", 7, none, "y"⟩] :
          List Comment).map Comment.toJson) 0 (fun _ => 0)).posted =
      2 - (List.range 2).countP
        (fun j => !((Env.mk true [⟨"b", "s", "h"⟩] (fun i => i == 0)
          (fun _ => "") true).postOk j)) :=
  ⟨by simp, by decide,
   (C3_report_counts "2" "r"
     [⟨"a.c", 3, some "critical", "x"⟩, ⟨"b.c", 7, none, "y"⟩]
     (Env.mk true [⟨"b", "s", "h"⟩] (fun i => i == 0) (fun _ => "") true)
     ⟨"b", "s", "h"⟩ [] (by simp) rfl rfl rfl (by decide)).1⟩

/-- Inline-discussion calls are never version fetches (composed form). -/
theorem countP_isFetchCall_comp (iid : String) (v : DiffVersion)
    (l : List Comment) :
    List.countP (isFetchCall ∘ mkDiscussion iid v ∘ Comment.toJson) l = 0 := by
  rw [List.countP_eq_zero]
  intro a _
  simp [Function.comp, mkDiscussion, isFetchCall]

/-- C8: in every non-dry run with at least one comment and a successful
versions call, the diff-version fetch appears exactly once in the trace;
when the returned list is non-empty, its first (most recent) record is
selected and every inline discussion call is built from that same record
(all three SHAs), followed by the one summary note; when the returned list
is empty the run exits 1 with the error message on stderr, after the fetch
and with no further calls. -/
theorem C8_version_fetch_once (iid s : String) (cms : List Comment)
    (env : Env) (hne : cms ≠ []) (hv : env.versionsOk = true) :
    ((processReview iid false (mkReview s cms) env).calls.countP isFetchCall
      = 1) ∧
    (∀ v vs, env.versions = v :: vs →
      (processReview iid false (mkReview s cms) env).calls =
        ExtCall.fetchVersions iid ::
          (cms.map Comment.toJson).map (mkDiscussion iid v) ++
          [ExtCall.postNote iid (summaryBody s
            (postLoop iid v env (cms.map Comment.toJson) 0
              (fun _ => 0)).stats)]) ∧
    (env.versions = [] →
      (processReview iid false (mkReview s cms) env).exitCode = 1 ∧
      (processReview iid false (mkReview s cms) env).stderr =
        "Error: No diff versions found for this MR." ++ "\n" ∧
      (processReview iid false (mkReview s cms) env).calls =
        [ExtCall.fetchVersions iid]) := by
  obtain ⟨c₀, cs₀, rfl⟩ : ∃ c₀ cs₀, cms = c₀ :: cs₀ := by
    cases cms with
    | nil => exact absurd rfl hne
    | cons c₀ cs₀ => exact ⟨c₀, cs₀, rfl⟩
  cases hvv : env.versions with
  | nil =>
    have hrun : processReview iid false (mkReview s (c₀ :: cs₀)) env =
        ⟨1, "Fetching MR !" ++ iid ++ " diff metadata ..." ++ "\n",
         "Error: No diff versions found for this MR." ++ "\n",
         [ExtCall.fetchVersions iid]⟩ := by
      unfold processReview
      simp [comments_mkReview, summary_mkReview, hv, hvv]
    rw [hrun]
    refine ⟨by simp [isFetchCall], ?_, ?_⟩
    · intro v vs h
      exact absurd h (by simp)
    · intro _
      exact ⟨rfl, rfl, rfl⟩
  | cons v vs =>
    have hcalls2 : (processReview iid false (mkReview s (c₀ :: cs₀)) env).calls =
        ExtCall.fetchVersions iid ::
          ((c₀ :: cs₀).map Comment.toJson).map (mkDiscussion iid v) ++
          [ExtCall.postNote iid (summaryBody s
            (postLoop iid v env ((c₀ :: cs₀).map Comment.toJson) 0
              (fun _ => 0)).stats)] := by
      rw [processReview_nonempty_eq iid s (c₀ :: cs₀) env v vs (by simp) hv hvv]
      cases hnote : env.noteOk <;> simp [hnote, postLoop_calls]
    refine ⟨?_, ?_, ?_⟩
    · rw [hcalls2]
      simp [List.countP_append, List.countP_cons, List.countP_map,
        countP_isFetchCall_comp, isFetchCall, mkDiscussion, isNoteCall]
    · intro v' vs' h
      injection h with h1 h2
      subst h1
      exact hcalls2
    · intro h
      exact absurd h (by simp)

/-- Witness for C8 at one comment and a single-record versions list. -/
theorem C8_version_fetch_once_witness :
    ([⟨"a.c", 3, some "critical", "x"⟩] : List Comment) ≠ [] ∧
    (Env.mk true [⟨"b", "s", "h"⟩] (fun _ => true) (fun _ => "")
      true).versionsOk = true ∧
    ((processReview "4" false (mkReview "r" [⟨"a.c", 3, some "critical", "x"⟩])
      (Env.mk true [⟨"b", "s", "h"⟩] (fun _ => true) (fun _ => "")
        true)).calls.countP isFetchCall = 1) :=
  ⟨by simp, rfl,
   (C8_version_fetch_once "4" "r" [⟨"a.c", 3, some "critical", "x"⟩]
     (Env.mk true [⟨"b", "s", "h"⟩] (fun _ => true) (fun _ => "") true)
     (by simp) rfl).1⟩

/-- In dry-run mode the run makes no external calls, whatever the review
object. -/
theorem processReview_dry_calls (iid : String) (review : Json) (env : Env) :
    (processReview iid true review env).calls = [] := rfl

/-- C4: with the dry-run flag set the program performs zero external
calls whatever the input and environment; over any well-formed review the
dry-run rendering contains, for every comment, its `file:line` pair, its
uppercased severity, and its body text verbatim, and the run exits 0; and
on the spec's example input the output contains `a.c:3`, `CRITICAL` and
`null deref`, with exit code 0 and no external calls. -/
theorem C4_dry_run :
    (∀ (argv : List String) (stdinText : String) (env : Env),
      "--dry-run" ∈ argv → (mainRun argv stdinText env).calls = []) ∧
    (∀ (iid s : String) (cms : List Comment) (env : Env),
      (processReview iid true (mkReview s cms) env).exitCode = 0 ∧
      (processReview iid true (mkReview s cms) env).calls = [] ∧
      ∀ c ∈ cms,
        ContainsSeg (processReview iid true (mkReview s cms) env).stdout
          (c.file ++ ":" ++ toString c.line) ∧
        ContainsSeg (processReview iid true (mkReview s cms) env).stdout
          (pyUpper c.sev) ∧
        ContainsSeg (processReview iid true (mkReview s cms) env).stdout
          c.body) ∧
    (∀ env : Env,
      (mainRun ["post_inline_comments.py", "42", "--dry-run"]
        "\x7b\"summary\": \"ok\", \"comments\": [\x7b\"file\":\"a.c\",\"line\":3,\"severity\":\"critical\",\"body\":\"null deref\"\x7d]\x7d"
        env).exitCode = 0 ∧
      (mainRun ["post_inline_comments.py", "42", "--dry-run"]
        "\x7b\"summary\": \"ok\", \"comments\": [\x7b\"file\":\"a.c\",\"line\":3,\"severity\":\"critical\",\"body\":\"null deref\"\x7d]\x7d"
        env).calls = [] ∧
      ContainsSeg (mainRun ["post_inline_comments.py", "42", "--dry-run"]
        "\x7b\"summary\": \"ok\", \"comments\": [\x7b\"file\":\"a.c\",\"line\":3,\"severity\":\"critical\",\"body\":\"null deref\"\x7d]\x7d"
        env).stdout "a.c:3" ∧
      ContainsSeg (mainRun ["post_inline_comments.py", "42", "--dry-run"]
        "\x7b\"summary\": \"ok\", \"comments\": [\x7b\"file\":\"a.c\",\"line\":3,\"severity\":\"critical\",\"body\":\"null deref\"\x7d]\x7d"
        env).stdout "CRITICAL" ∧
      ContainsSeg (mainRun ["post_inline_comments.py", "42", "--dry-run"]
        "\x7b\"summary\": \"ok\", \"comments\": [\x7b\"file\":\"a.c\",\"line\":3,\"severity\":\"critical\",\"body\":\"null deref\"\x7d]\x7d"
        env).stdout "null deref") := by
  refine ⟨?_, ?_, ?_⟩
  · intro argv stdinText env hmem
    have hc : argv.contains "--dry-run" = true := by
      simpa using hmem
    unfold mainRun
    by_cases hlen : argv.length < 2
    · simp [hlen]
    · simp only [hlen, if_false]
      cases hextract : extract_json (pyStrip stdinText) with
      | none => simp [hextract]
      | some review => simp [hextract, hc, hmem, processReview_dry_calls]
  · intro iid s cms env
    rw [processReview_dry]
    refine ⟨rfl, rfl, ?_⟩
    intro c hmem
    have hmem' : Comment.toJson c ∈ cms.map Comment.toJson :=
      List.mem_map_of_mem Comment.toJson hmem
    refine ⟨?_, ?_, ?_⟩
    · have := print_dry_run_contains hmem' s (dryRunChunk_file_line c.toJson)
      rwa [fileOf_toJson, lineStrOf_toJson] at this
    · have := print_dry_run_contains hmem' s (dryRunChunk_sev c.toJson)
      rwa [sevOf_toJson] at this
    · have := print_dry_run_contains hmem' s (dryRunChunk_body c.toJson)
      rwa [bodyOf_toJson] at this
  · intro env
    exact ⟨rfl, rfl,
      containsSeg_of_segB (by rfl),
      containsSeg_of_segB (by rfl),
      containsSeg_of_segB (by rfl)⟩

/-- Witness for C4 at a concrete dry-run invocation. -/
theorem C4_dry_run_witness :
    ("--dry-run" : String) ∈ ["post_inline_comments.py", "1", "--dry-run"] ∧
    (mainRun ["post_inline_comments.py", "1", "--dry-run"] "no json"
      (Env.mk true [] (fun _ => true) (fun _ => "") true)).calls = [] :=
  ⟨by simp,
   C4_dry_run.1 ["post_inline_comments.py", "1", "--dry-run"] "no json"
     (Env.mk true [] (fun _ => true) (fun _ => "") true) (by simp)⟩

/-- Soundness of the brace scan: a returned object always comes from some
slice of the scanned text that passed `checkCandidate`. -/
theorem scanBraces_sound (full : List Char) :
    ∀ (cs : List Char) (i : Nat) (depth : Int) (start : Option Nat) (j : Json),
      scanBraces full cs i depth start = some j →
      ∃ s k, checkCandidate ((full.drop s).take k) = some j := by
  intro cs
  induction cs with
  | nil =>
    intro i depth start j h
    exact absurd h (by simp [scanBraces])
  | cons c cs ih =>
    intro i depth start j h
    unfold scanBraces at h
    split at h
    · exact ih _ _ _ j h
    · split at h
      · split at h
        · split at h
          · split at h
            · injection h with h
              subst h
              rename_i heq
              exact ⟨_, _, heq⟩
            · exact ih _ _ _ j h
          · exact ih _ _ _ j h
        · exact ih _ _ _ j h
      · exact ih _ _ _ j h

/-- What passing `checkCandidate` means: the slice parses as JSON to a
dict containing the key `"summary"`, and that dict is the returned
object. -/
theorem checkCandidate_spec {mid : List Char} {j : Json}
    (h : checkCandidate mid = some j) :
    json_loads mid = some j ∧
    ∃ fields, j = Json.obj fields ∧ Json.hasKey fields "summary" = true := by
  unfold checkCandidate at h
  split at h
  · rename_i fields heq
    split at h
    · rename_i hkey
      injection h with h
      subst h
      exact ⟨heq, fields, rfl, hkey⟩
    · exact absurd h (by simp)
  · exact absurd h (by simp)

/-- Soundness of `extract_json`: any returned object is the parse of some
contiguous slice of the fence-stripped input that is a dict containing
`"summary"`.  Contrapositive: when no such slice exists, the extractor
returns `none`. -/
theorem extract_json_sound (t : String) (j : Json)
    (h : extract_json t = some j) :
    ∃ a mid b, stripFences t.data = a ++ mid ++ b ∧
      json_loads mid = some j ∧
      ∃ fields, j = Json.obj fields ∧ Json.hasKey fields "summary" = true := by
  unfold extract_json at h
  obtain ⟨s, k, hck⟩ := scanBraces_sound _ _ _ _ _ _ h
  obtain ⟨hload, hobj⟩ := checkCandidate_spec hck
  refine ⟨(stripFences t.data).take s,
    ((stripFences t.data).drop s).take k,
    ((stripFences t.data).drop s).drop k, ?_, hload, hobj⟩
  conv_lhs => rw [← List.take_append_drop s (stripFences t.data),
    ← List.take_append_drop k ((stripFences t.data).drop s)]
  rw [List.append_assoc]

/-- C6: on input whose (stripped) text contains no JSON object with a
`"summary"` key, the extractor returns `none` — shown through its
soundness: any `some` result parses from a slice of the fence-stripped
text as a dict with `"summary"` — and the program then exits 1 with no
external calls, printing to stderr the diagnostic and the first 500
characters of the (stripped) raw input. -/
theorem C6_extraction_failure (argv0 iid stdinText : String) (env : Env)
    (hnone : extract_json (pyStrip stdinText) = none) :
    (mainRun [argv0, iid] stdinText env).exitCode = 1 ∧
    ContainsSeg (mainRun [argv0, iid] stdinText env).stderr
      "Error: Could not find valid JSON in Claude's output." ∧
    ContainsSeg (mainRun [argv0, iid] stdinText env).stderr
      (String.mk ((pyStrip stdinText).data.take 500)) ∧
    (mainRun [argv0, iid] stdinText env).calls = [] ∧
    (∀ (t : String) (j : Json), extract_json t = some j →
      ∃ a mid b, stripFences t.data = a ++ mid ++ b ∧
        json_loads mid = some j ∧
        ∃ fields, j = Json.obj fields ∧
          Json.hasKey fields "summary" = true) := by
  have hrun : mainRun [argv0, iid] stdinText env =
      ⟨1, "",
       "Error: Could not find valid JSON in Claude's output." ++ "\n" ++
         "Raw output:\n" ++
         String.mk ((pyStrip stdinText).data.take 500) ++ "\n",
       []⟩ := by
    unfold mainRun
    simp only [List.length_cons, List.length_nil]
    rw [if_neg (by omega)]
    simp [hnone]
  rw [hrun]
  refine ⟨rfl, ?_, ?_, rfl, fun t j h => extract_json_sound t j h⟩
  · exact ⟨[], ("\n" ++ "Raw output:\n" ++
      String.mk ((pyStrip stdinText).data.take 500) ++ "\n").data, by simp⟩
  · exact ⟨("Error: Could not find valid JSON in Claude's output." ++ "\n" ++
      "Raw output:\n").data, ("\n" : String).data, by simp⟩

/-- Witness for C6 on an input with no JSON at all. -/
theorem C6_extraction_failure_witness :
    extract_json (pyStrip "no json here") = none ∧
    (mainRun ["post_inline_comments.py", "1"] "no json here"
      (Env.mk true [] (fun _ => true) (fun _ => "") true)).exitCode = 1 :=
  ⟨rfl,
   (C6_extraction_failure "post_inline_comments.py" "1" "no json here"
     (Env.mk true [] (fun _ => true) (fun _ => "") true) rfl).1⟩

theorem braceDepth_append (a b : List Char) :
    braceDepth (a ++ b) = braceDepth a + braceDepth b := by
  simp only [braceDepth, List.countP_append]
  push_cast
  ring

theorem braceDepth_open : braceDepth ['{'] = 1 := by decide

theorem braceDepth_close : braceDepth ['}'] = -1 := by decide

theorem braceDepth_other {c : Char} (h1 : ¬c = '{') (h2 : ¬c = '}') :
    braceDepth [c] = 0 := by
  simp [braceDepth, List.countP_cons, h1, h2]

/-- A fence match can only start with a backtick. -/
theorem matchFence_none_head {c : Char} (hc : c ≠ '`') (cs : List Char) :
    matchFence (c :: cs) = none := by
  unfold matchFence
  split
  · rename_i rest heq
    injection heq with h1 _
    exact absurd h1 hc
  · rfl

theorem stripFences_nil : stripFences [] = [] := rfl

/-- Fence stripping leaves a backtick-free prefix untouched. -/
theorem stripFences_append_nobt :
    ∀ (u : List Char), (∀ c ∈ u, c ≠ '`') → ∀ (w : List Char),
      stripFences (u ++ w) = u ++ stripFences w := by
  intro u
  induction u with
  | nil => intro _ w; rfl
  | cons c u' ih =>
    intro hu w
    have hc : c ≠ '`' := hu c (by simp)
    rw [List.cons_append,
      stripFences_matchNone (matchFence_none_head hc (u' ++ w)),
      ih (fun x hx => hu x (by simp [hx])) w]
    rfl

/-- Fence stripping is the identity on backtick-free text. -/
theorem stripFences_id_nobt (u : List Char) (hu : ∀ c ∈ u, c ≠ '`') :
    stripFences u = u := by
  have := stripFences_append_nobt u hu []
  simpa [stripFences_nil] using this

/-- One step of the brace scan. -/
theorem scanBraces_cons (full : List Char) (c : Char) (cs : List Char)
    (i : Nat) (depth : Int) (start : Option Nat) :
    scanBraces full (c :: cs) i depth start =
      (if c = '{' then
        scanBraces full cs (i + 1) (depth + 1)
          (if depth = 0 then some i else start)
      else if c = '}' then
        if depth - 1 = 0 then
          match start with
          | some s =>
            (match checkCandidate ((full.drop s).take (i + 1 - s)) with
             | some o => some o
             | none => scanBraces full cs (i + 1) (depth - 1) start)
          | none => scanBraces full cs (i + 1) (depth - 1) start
        else scanBraces full cs (i + 1) (depth - 1) start
      else scanBraces full cs (i + 1) depth start) := rfl

/-- The brace scan walks over brace-free characters changing only its
index. -/
theorem scanBraces_skip (full : List Char) :
    ∀ (u : List Char), (∀ c ∈ u, ¬c = '{' ∧ ¬c = '}') →
    ∀ (w : List Char) (i : Nat) (depth : Int) (start : Option Nat),
      scanBraces full (u ++ w) i depth start =
        scanBraces full w (i + u.length) depth start := by
  intro u
  induction u with
  | nil => intro _ w i depth start; simp
  | cons c u' ih =>
    intro hu w i depth start
    have hc := hu c (by simp)
    rw [List.cons_append]
    rw [scanBraces_cons]
    rw [if_neg hc.1, if_neg hc.2,
      ih (fun x hx => hu x (by simp [hx])) w (i + 1) depth start]
    have harith : i + 1 + u'.length = i + (c :: u').length := by
      simp
      omega
    rw [harith]

/-- Walking the interior of a strictly balanced candidate: once the scan
has entered the candidate (depth positive, start set at its opening
brace), it leaves only at the final `}`, where it extracts exactly the
candidate and returns its parse. -/
theorem scanBraces_interior (p t : List Char) (j : Json)
    (hbal : StrictBalanced t) (hck : checkCandidate t = some j) :
    ∀ (v u : List Char), t = u ++ v → u ≠ [] → v ≠ [] →
      scanBraces (p ++ t) v (p.length + u.length) (braceDepth u)
        (some p.length) = some j := by
  intro v
  induction v with
  | nil =>
    intro u _ _ hv
    exact absurd rfl hv
  | cons c vrest ih =>
    intro u huv hu _
    have hulen : u.length < t.length := by
      rw [huv]
      simp
    have htake : t.take u.length = u := by
      rw [huv, List.take_left]
    have hupos : 0 < braceDepth u := by
      have h0 : 0 < u.length := by
        cases u with
        | nil => exact absurd rfl hu
        | cons _ _ => simp
      have := hbal.2.2 u.length hulen h0
      rwa [htake] at this
    cases vrest with
    | nil =>
      have ht : t = u ++ [c] := huv
      have hdt : braceDepth u + braceDepth [c] = 0 := by
        rw [← braceDepth_append, ← ht]
        exact hbal.2.1
      have hc : c = '}' ∧ braceDepth u = 1 := by
        by_cases h1 : c = '{'
        · subst h1
          rw [braceDepth_open] at hdt
          omega
        · by_cases h2 : c = '}'
          · subst h2
            rw [braceDepth_close] at hdt
            exact ⟨rfl, by omega⟩
          · rw [braceDepth_other h1 h2] at hdt
            omega
      obtain ⟨hc', hd1⟩ := hc
      subst hc'
      unfold scanBraces
      rw [if_neg (by decide), if_pos rfl, hd1]
      rw [if_pos (by decide)]
      have hdrop : (p ++ t).drop p.length = t := List.drop_left p t
      have hidx : p.length + u.length + 1 - p.length = u.length + 1 := by
        omega
      have hlen : u.length + 1 = t.length := by
        rw [ht]
        simp
      show (match checkCandidate (((p ++ t).drop p.length).take
          (p.length + u.length + 1 - p.length)) with
        | some o => some o
        | none => scanBraces (p ++ t) [] (p.length + u.length + 1)
            ((1 : Int) - 1) (some p.length)) = some j
      rw [hdrop, hidx, hlen, List.take_length, hck]
    | cons c₂ v₂ =>
      have hu' : t = (u ++ [c]) ++ (c₂ :: v₂) := by
        rw [huv]
        simp
      have hrec := ih (u ++ [c]) hu' (by simp) (by simp)
      have hulen' : (u ++ [c]).length < t.length := by
        rw [hu']
        simp
      have htake' : t.take (u ++ [c]).length = u ++ [c] := by
        rw [hu', List.take_left]
      have hupos' : 0 < braceDepth (u ++ [c]) := by
        have := hbal.2.2 (u ++ [c]).length hulen' (by simp)
        rwa [htake'] at this
      have hidx : p.length + u.length + 1 = p.length + (u ++ [c]).length := by
        simp
        omega
      unfold scanBraces
      by_cases h1 : c = '{'
      · subst h1
        rw [if_pos rfl]
        have hd : braceDepth u + 1 = braceDepth (u ++ ['{']) := by
          rw [braceDepth_append, braceDepth_open]
        have hstart : (if braceDepth u = 0 then some (p.length + u.length)
            else some p.length) = some p.length := if_neg (by omega)
        rw [hstart, hidx, hd]
        exact hrec
      · rw [if_neg h1]
        by_cases h2 : c = '}'
        · subst h2
          rw [if_pos rfl]
          have hd : braceDepth u - 1 = braceDepth (u ++ ['}']) := by
            rw [braceDepth_append, braceDepth_close]
            ring
          have hne : ¬(braceDepth u - 1 = 0) := by
            rw [hd]
            omega
          rw [if_neg hne, hidx, hd]
          exact hrec
        · rw [if_neg h2]
          have hd : braceDepth u = braceDepth (u ++ [c]) := by
            rw [braceDepth_append, braceDepth_other h1 h2]
            ring
          rw [hidx, hd]
          exact hrec

/-- The scan over brace-free prose followed by a strictly balanced
summary-carrying candidate returns that candidate's parse. -/
theorem scanBraces_balanced (p t : List Char) (j : Json)
    (hp : ∀ c ∈ p, ¬c = '{' ∧ ¬c = '}')
    (hbal : StrictBalanced t) (hck : checkCandidate t = some j) :
    scanBraces (p ++ t) (p ++ t) 0 0 none = some j := by
  rw [scanBraces_skip (p ++ t) p hp t 0 0 none]
  obtain ⟨r, htr⟩ : ∃ r, t = '{' :: r := by
    cases ht : t with
    | nil =>
      rw [ht] at hbal
      exact absurd hbal.1 (by simp)
    | cons c r =>
      rw [ht] at hbal
      have : c = '{' := by simpa using hbal.1
      exact ⟨r, by rw [this]⟩
  have hrne : r ≠ [] := by
    intro hr
    have := hbal.2.1
    rw [htr, hr] at this
    rw [braceDepth_open] at this
    omega
  conv_lhs => rw [htr]
  unfold scanBraces
  rw [if_pos rfl, if_pos rfl]
  have hstep := scanBraces_interior p t j hbal hck r ['{'] (by rw [htr]; rfl)
    (by simp) hrne
  rw [braceDepth_open] at hstep
  rw [htr] at hstep
  simpa using hstep

/-- C1 counterexample: prose consisting of a single `{`, then a markdown
fence, then a valid JSON object with a `"summary"` key.  The object parses
and carries the key, yet `extract_json` returns `none` — the stray prose
brace corrupts the raw brace balance, so the claim fails for arbitrary
prose. -/
theorem C1_counterexample :
    json_loads "\x7b\"summary\": \"ok\"\x7d".data =
      some (Json.obj [("summary", Json.str "ok")]) ∧
    Json.hasKey [("summary", Json.str "ok")] "summary" = true ∧
    extract_json ("\x7b" ++ "```json\n" ++ "\x7b\"summary\": \"ok\"\x7d") = none :=
  ⟨rfl, rfl, rfl⟩

/-- C1 (amended): for prose containing no braces and no backticks, a
markdown fence (```` ``` ```` or ```` ```json ```` followed by a newline),
and a backtick-free JSON object text whose raw braces are strictly
balanced and which parses to a dict containing `"summary"`, `extract_json`
on the concatenation returns exactly that object.  (It is then the first —
and only — balanced candidate, per the scan's left-to-right order.) -/
theorem C1_extract_embedded_object (p f t : String)
    (fields : List (String × Json))
    (hp : ∀ c ∈ p.data, ¬c = '{' ∧ ¬c = '}' ∧ ¬c = '`')
    (hf : f = "```\n" ∨ f = "```json\n")
    (hbt : ∀ c ∈ t.data, ¬c = '`')
    (hbal : StrictBalanced t.data)
    (hparse : json_loads t.data = some (Json.obj fields))
    (hsum : Json.hasKey fields "summary" = true) :
    extract_json (p ++ f ++ t) = some (Json.obj fields) := by
  obtain ⟨r, htr⟩ : ∃ r, t.data = '{' :: r := by
    cases ht : t.data with
    | nil =>
      rw [ht] at hbal
      exact absurd hbal.1 (by simp)
    | cons c r =>
      rw [ht] at hbal
      have : c = '{' := by simpa using hbal.1
      exact ⟨r, by rw [this]⟩
  have hstrip : stripFences (p ++ f ++ t).data = p.data ++ t.data := by
    have hdata : (p ++ f ++ t).data = p.data ++ (f.data ++ t.data) := by
      simp
    rw [hdata, stripFences_append_nobt p.data (fun c hc => (hp c hc).2.2)]
    congr 1
    have hid : stripFences t.data = t.data := stripFences_id_nobt t.data hbt
    rcases hf with hf | hf <;> subst hf
    · have hm : matchFence ("```\n".data ++ t.data) = some t.data := by
        rw [htr]
        rfl
      rw [stripFences_matchSome hm, hid]
    · have hm : matchFence ("```json\n".data ++ t.data) = some t.data := by
        rw [htr]
        rfl
      rw [stripFences_matchSome hm, hid]
  have hck : checkCandidate t.data = some (Json.obj fields) := by
    unfold checkCandidate
    rw [hparse]
    simp [hsum]
  unfold extract_json
  rw [hstrip]
  exact scanBraces_balanced p.data t.data (Json.obj fields)
    (fun c hc => ⟨(hp c hc).1, (hp c hc).2.1⟩) hbal hck

/-- Witness for C1 (amended) on concrete prose, fence and object text. -/
theorem C1_extract_embedded_object_witness :
    (∀ c ∈ ("Thinking text first. " : String).data,
      ¬c = '{' ∧ ¬c = '}' ∧ ¬c = '`') ∧
    StrictBalanced ("\x7b\"summary\": \"ok\"\x7d" : String).data ∧
    extract_json ("Thinking text first. " ++ "```json\n" ++
        "\x7b\"summary\": \"ok\"\x7d") =
      some (Json.obj [("summary", Json.str "ok")]) :=
  ⟨by decide, by decide,
   C1_extract_embedded_object "Thinking text first. " "```json\n"
     "\x7b\"summary\": \"ok\"\x7d" [("summary", Json.str "ok")]
     (by decide) (Or.inr rfl) (by decide) (by decide) rfl rfl⟩
